import Mathlib

/-!
Verification development for the envm environment-variable manager.

The JavaScript sources (platform/posix.mjs, platform/win.mjs, path-utils.mjs,
backup.mjs, index.mjs, cli.mjs) are shallowly embedded below.  JavaScript
strings are modeled by Lean strings manipulated through their character
lists; the process environment, the POSIX profile/system files and the
Windows registry are modeled as explicit state records; asynchronous
functions that can reject are modeled with Except; fallible I/O calls are
modeled with explicit failure oracles in the state.
-/

namespace Envm

/-- Storage scope, matching the scope option of the adapters. -/
inductive Scope where
  | session
  | user
  | system
deriving DecidableEq, Repr

/-- Outcome record of a set or unset, mirroring the Result objects the
adapters return.  A JavaScript undefined or null field is modeled as none. -/
structure MutationResult where
  ok : Bool
  scope : Scope
  name : String
  previous : Option String
  next : Option String
  verification : Bool
  rollback : Option Bool
  notes : List String
deriving DecidableEq, Repr

/-- Options record of set and unset, with the source defaults
backup = verify = rollbackOnFail = true. -/
structure MutOpts where
  scope : Scope
  backup : Bool := true
  verify : Bool := true
  rollbackOnFail : Bool := true
deriving DecidableEq, Repr

/-- Single-quote character, used by the adapters when writing
export NAME=...value... lines. -/
def sqc : Char := Char.ofNat 39

/-- Single-quote as a string. -/
def sq : String := String.mk [sqc]

/-- Left-brace character. -/
def lbr : Char := Char.ofNat 123

/-- Right-brace character. -/
def rbr : Char := Char.ofNat 125

/-- The character class matched by backslash-w in a JavaScript regular
expression: ASCII letters, digits and underscore. -/
def wordChar (c : Char) : Bool :=
  (97 ≤ c.val && c.val ≤ 122) || (65 ≤ c.val && c.val ≤ 90) ||
    (48 ≤ c.val && c.val ≤ 57) || c.val = 95

/-- The JavaScript whitespace class (backslash-s, String.prototype.trim):
tab through carriage return, space, no-break space, the Unicode space
separators, line and paragraph separators, and the byte-order mark. -/
def jsWhite (c : Char) : Bool :=
  (9 ≤ c.val && c.val ≤ 13) || c.val = 32 || c.val = 160 || c.val = 0x1680 ||
    (0x2000 ≤ c.val && c.val ≤ 0x200a) || c.val = 0x2028 || c.val = 0x2029 ||
    c.val = 0x202f || c.val = 0x205f || c.val = 0x3000 || c.val = 0xfeff

/-- Model of String.prototype.trim on a character list. -/
def trimJS (s : List Char) : List Char :=
  ((s.dropWhile jsWhite).reverse.dropWhile jsWhite).reverse

/-- Model of String.prototype.trim on a string. -/
def jsTrim (s : String) : String :=
  String.mk (trimJS s.data)

/-- Model of String.prototype.toUpperCase (the adapters only apply it to
ASCII variable names). -/
def jsToUpper (s : String) : String :=
  String.mk (s.data.map Char.toUpper)

/-- Exact-key lookup in the process environment, as used by the POSIX
adapter for process.env access. -/
def envGet (env : List (String × String)) (k : String) : Option String :=
  (env.find? (fun p => p.1 == k)).map (·.2)

/-- Exact-key assignment to the process environment. -/
def envPut (env : List (String × String)) (k v : String) : List (String × String) :=
  if env.any (fun p => p.1 == k) then
    env.map (fun p => if p.1 == k then (p.1, v) else p)
  else
    env ++ [(k, v)]

/-- Exact-key deletion from the process environment. -/
def envDel (env : List (String × String)) (k : String) : List (String × String) :=
  env.filter (fun p => !(p.1 == k))

/-- Case-insensitive lookup, modeling process.env on Windows where
environment keys compare case-insensitively. -/
def winEnvGet (env : List (String × String)) (k : String) : Option String :=
  (env.find? (fun p => jsToUpper p.1 == jsToUpper k)).map (·.2)

/-- Case-insensitive assignment for the Windows process environment. -/
def winEnvPut (env : List (String × String)) (k v : String) : List (String × String) :=
  if env.any (fun p => jsToUpper p.1 == jsToUpper k) then
    env.map (fun p => if jsToUpper p.1 == jsToUpper k then (p.1, v) else p)
  else
    env ++ [(k, v)]

/-- Case-insensitive deletion for the Windows process environment. -/
def winEnvDel (env : List (String × String)) (k : String) : List (String × String) :=
  env.filter (fun p => !(jsToUpper p.1 == jsToUpper k))

/-- First index at which pat occurs as a contiguous sublist, the model of
String.prototype.indexOf and of leftmost regular-expression matching for a
literal pattern. -/
def findSub (pat : List Char) : List Char → Option Nat
  | [] => if pat.isEmpty then some 0 else none
  | a :: t => if pat.isPrefixOf (a :: t) then some 0 else (findSub pat t).map (· + 1)

/-- Whether pat occurs in s. -/
def containsSub (s : String) (pat : List Char) : Bool :=
  (findSub pat s.data).isSome

/-- Model of JavaScript value.split for a single-character separator
applied to a string. -/
def splitChar (c : Char) (s : String) : List String :=
  (s.data.splitOn c).map String.mk

/-- Model of Array.prototype.join for strings. -/
def joinWith (c : Char) (xs : List String) : String :=
  String.mk (List.intercalate [c] (xs.map String.data))

end Envm

namespace Envm

/-! ## POSIX adapter (platform/posix.mjs) -/

/-- State touched by the POSIX adapter: the process environment table, the
content of the user profile file and of /etc/environment (none models a
missing or unreadable file), the backup store as (scope, name, content)
records, and failure oracles for the two fs.writeFile targets. -/
structure PosixState where
  env : List (String × String)
  profile : Option String
  etcEnv : Option String
  backups : List (String × String × String)
  profileWriteFails : Bool := false
  etcWriteFails : Bool := false
deriving DecidableEq, Repr

/-- Embedding of posix.mjs getRaw.  The session branch reads process.env;
the user and system branches of the source are explicit stubs that throw
new Error("Not implemented: ...").  A rejected promise is an error value. -/
def posixGetRaw (s : PosixState) (name : String) (scope : Scope) :
    Except String (Option String) :=
  if scope = Scope.session then
    Except.ok (envGet s.env name)
  else if scope = Scope.user then
    Except.error "Not implemented: getRaw user"
  else
    Except.error "Not implemented: getRaw system"

/-- The literal marker line of the managed block, with its newline, as
matched by the block-extraction regular expression. -/
def envmBeginNL : List Char := ('#' :: ' ' :: "envm-begin".data) ++ ['\n']

/-- The begin marker without newline, as matched by the block-replacement
regular expression and the containment test. -/
def envmBeginMark : List Char := '#' :: ' ' :: "envm-begin".data

/-- The end marker. -/
def envmEndMark : List Char := '#' :: ' ' :: "envm-end".data

/-- Group 1 of the lazy block match: the text between the first
begin-marker-plus-newline and the first end marker after it.  none when the
pattern does not match. -/
def blockInner (content : String) : Option String :=
  match findSub envmBeginNL content.data with
  | none => none
  | some i =>
    let rest := content.data.drop (i + envmBeginNL.length)
    match findSub envmEndMark rest with
    | none => none
    | some j => some (String.mk (rest.take j))

/-- Parse of a managed-block line against the anchored regular expression
export backslash-s-plus word-group equals rest-group, returning the
variable name and the raw right-hand side. -/
def parseExportLine (l : String) : Option (String × String) :=
  let cs := l.data
  if "export".data.isPrefixOf cs then
    let rest := cs.drop 6
    let ws := rest.takeWhile jsWhite
    if ws.length = 0 then none
    else
      let rest2 := rest.drop ws.length
      let w := rest2.takeWhile wordChar
      if w.length = 0 then none
      else
        match rest2.drop w.length with
        | [] => none
        | e :: value => if e = '=' then some (String.mk w, String.mk value) else none
  else none

/-- The export line the adapter writes for a variable. -/
def exportLine (name value : String) : String :=
  "export " ++ name ++ "=" ++ sq ++ value ++ sq

/-- The NAME=value line the adapter writes into /etc/environment. -/
def sysLine (name value : String) : String :=
  name ++ "=" ++ sq ++ value ++ sq

/-- Replacement of the first (lazy) begin-to-end region of content by
newBlock; content is returned unchanged when the region pattern does not
match, exactly as String.prototype.replace does. -/
def replaceBlockOnce (content newBlock : String) : String :=
  match findSub envmBeginMark content.data with
  | none => content
  | some i =>
    let rest := content.data.drop (i + envmBeginMark.length)
    match findSub envmEndMark rest with
    | none => content
    | some j =>
      String.mk (content.data.take i) ++ newBlock ++
        String.mk (rest.drop (j + envmEndMark.length))

/-- New profile content computed by posix.mjs set at user scope: rewrite
the managed-block lines, append an export line when the name was absent,
rebuild the block, splice it over the old block, and append a fresh block
when none existed. -/
def posixUserNewContent (name value oldContent : String) : String :=
  let lines := match blockInner oldContent with
    | some b => splitChar '\n' b
    | none => []
  let found := lines.any (fun l => match parseExportLine l with
    | some (n, _) => n == name
    | none => false)
  let mapped := lines.map (fun l => match parseExportLine l with
    | some (n, _) => if n == name then exportLine name value else l
    | none => l)
  let lines2 := if found then mapped else mapped ++ [exportLine name value]
  let newBlock := String.mk envmBeginNL ++
    joinWith '\n' (lines2.filter (fun l => !l.isEmpty)) ++
    "\n" ++ String.mk envmEndMark
  let replaced := replaceBlockOnce oldContent newBlock
  if containsSub replaced envmBeginMark then replaced
  else replaced ++ "\n" ++ newBlock ++ "\n"

/-- New /etc/environment content computed by posix.mjs set at system scope:
rewrite the NAME= line, append when absent. -/
def posixSystemNewContent (name value oldContent : String) : String :=
  let lines := splitChar '\n' oldContent
  let found := lines.any (fun l => (name ++ "=").data.isPrefixOf l.data)
  let mapped := lines.map (fun l =>
    if (name ++ "=").data.isPrefixOf l.data then sysLine name value else l)
  let lines2 := if found then mapped else mapped ++ [sysLine name value]
  joinWith '\n' lines2

/-- Embedding of posix.mjs set.  For user and system scope the source
performs read, optional backup, content rewrite, bare fs.writeFile (whose
rejection propagates, modeled through the failure oracle), and then a
verification read through getRaw; since getRaw is a throwing stub for
those scopes, that read rejects and the rejection propagates out of set. -/
def posixSet (s : PosixState) (name value : String) (o : MutOpts) :
    Except String (PosixState × MutationResult) :=
  if o.scope = Scope.session then
    let previous := envGet s.env name
    Except.ok ({ s with env := envPut s.env name value },
      { ok := true, scope := o.scope, name := name, previous := previous,
        next := some value, verification := true, rollback := none,
        notes := ["session only"] })
  else if o.scope = Scope.user then
    let oldContent := (s.profile.getD "")
    let s1 := if o.backup then
        { s with backups := s.backups ++ [("user", name, oldContent)] }
      else s
    let newContent := posixUserNewContent name value oldContent
    if s1.profileWriteFails then Except.error "EACCES: permission denied"
    else
      let s2 := { s1 with profile := some newContent }
      do
        let r ← posixGetRaw s2 name Scope.user
        let verification := decide (r = some value)
        if !verification && o.rollbackOnFail && o.backup then
          if s2.profileWriteFails then Except.error "EACCES: permission denied"
          else
            Except.ok ({ s2 with profile := some oldContent },
              { ok := verification, scope := o.scope, name := name,
                previous := none, next := some value,
                verification := verification, rollback := some true,
                notes := ["~/.profile"] })
        else
          Except.ok (s2,
            { ok := verification, scope := o.scope, name := name,
              previous := none, next := some value,
              verification := verification, rollback := none,
              notes := ["~/.profile"] })
  else
    let oldContent := (s.etcEnv.getD "")
    let s1 := if o.backup then
        { s with backups := s.backups ++ [("system", name, oldContent)] }
      else s
    let newContent := posixSystemNewContent name value oldContent
    if s1.etcWriteFails then Except.error "EACCES: permission denied"
    else
      let s2 := { s1 with etcEnv := some newContent }
      do
        let r ← posixGetRaw s2 name Scope.system
        let verification := decide (r = some value)
        if !verification && o.rollbackOnFail && o.backup then
          if s2.etcWriteFails then Except.error "EACCES: permission denied"
          else
            Except.ok ({ s2 with etcEnv := some oldContent },
              { ok := verification, scope := o.scope, name := name,
                previous := none, next := some value,
                verification := verification, rollback := some true,
                notes := ["/etc/environment"] })
        else
          Except.ok (s2,
            { ok := verification, scope := o.scope, name := name,
              previous := none, next := some value,
              verification := verification, rollback := none,
              notes := ["/etc/environment"] })

/-- The unset filter of posix.mjs user scope builds its regular expression
from a template literal in which the escape sequence backslash-s collapses
to a plain letter s, so the pattern is caret export s-plus NAME equals:
the word export, then one or more letter s, then the name, then equals.
An ordinary export NAME=... line (with a space) never matches it. -/
def mangledUnsetMatches (name : String) (l : String) : Bool :=
  let cs := l.data
  if "export".data.isPrefixOf cs then
    let rest := cs.drop 6
    let pat := name.data ++ ['=']
    (List.range ((rest.takeWhile (fun c => c = 's')).length)).any
      (fun k => pat.isPrefixOf (rest.drop (k + 1)))
  else false

/-- Embedding of posix.mjs unset, symmetric to set; the verification read
again goes through the throwing getRaw stub for user and system scope. -/
def posixUnset (s : PosixState) (name : String) (o : MutOpts) :
    Except String (PosixState × MutationResult) :=
  if o.scope = Scope.session then
    let previous := envGet s.env name
    Except.ok ({ s with env := envDel s.env name },
      { ok := true, scope := o.scope, name := name, previous := previous,
        next := none, verification := true, rollback := none,
        notes := ["session only"] })
  else if o.scope = Scope.user then
    let oldContent := (s.profile.getD "")
    let s1 := if o.backup then
        { s with backups := s.backups ++ [("user", name, oldContent)] }
      else s
    let lines := match blockInner oldContent with
      | some b => splitChar '\n' b
      | none => []
    let kept := lines.filter (fun l => !mangledUnsetMatches name l)
    let newBlock := String.mk envmBeginNL ++
      joinWith '\n' (kept.filter (fun l => !l.isEmpty)) ++
      "\n" ++ String.mk envmEndMark
    let replaced := replaceBlockOnce oldContent newBlock
    let newContent := if containsSub replaced envmBeginMark then replaced
      else replaced ++ "\n" ++ newBlock ++ "\n"
    if s1.profileWriteFails then Except.error "EACCES: permission denied"
    else
      let s2 := { s1 with profile := some newContent }
      do
        let r ← posixGetRaw s2 name Scope.user
        let verification := decide (r = none)
        if !verification && o.rollbackOnFail && o.backup then
          if s2.profileWriteFails then Except.error "EACCES: permission denied"
          else
            Except.ok ({ s2 with profile := some oldContent },
              { ok := verification, scope := o.scope, name := name,
                previous := none, next := none, verification := verification,
                rollback := some true, notes := ["~/.profile"] })
        else
          Except.ok (s2,
            { ok := verification, scope := o.scope, name := name,
              previous := none, next := none, verification := verification,
              rollback := none, notes := ["~/.profile"] })
  else
    let oldContent := (s.etcEnv.getD "")
    let s1 := if o.backup then
        { s with backups := s.backups ++ [("system", name, oldContent)] }
      else s
    let lines := splitChar '\n' oldContent
    let kept := lines.filter (fun l => !(name ++ "=").data.isPrefixOf l.data)
    let newContent := joinWith '\n' kept
    if s1.etcWriteFails then Except.error "EACCES: permission denied"
    else
      let s2 := { s1 with etcEnv := some newContent }
      do
        let r ← posixGetRaw s2 name Scope.system
        let verification := decide (r = none)
        if !verification && o.rollbackOnFail && o.backup then
          if s2.etcWriteFails then Except.error "EACCES: permission denied"
          else
            Except.ok ({ s2 with etcEnv := some oldContent },
              { ok := verification, scope := o.scope, name := name,
                previous := none, next := none, verification := verification,
                rollback := some true, notes := ["/etc/environment"] })
        else
          Except.ok (s2,
            { ok := verification, scope := o.scope, name := name,
              previous := none, next := none, verification := verification,
              rollback := none, notes := ["/etc/environment"] })

end Envm

namespace Envm

/-! ## Windows adapter (platform/win.mjs) -/

/-- State touched by the Windows adapter: the (case-insensitive) process
environment, the two registry environment keys as name-value lists, the
backup store, and failure oracles for the reg.exe export, add and delete
calls. -/
structure WinState where
  env : List (String × String)
  userReg : List (String × String)
  sysReg : List (String × String)
  backups : List (String × String × String)
  regExportFails : Bool := false
  regAddFails : Bool := false
  regDeleteFails : Bool := false
deriving DecidableEq, Repr

/-- Registry path chosen by the adapter for a scope (the source ternary
tests scope against user and otherwise picks the machine key). -/
def regPathOf (scope : Scope) : String :=
  if scope = Scope.user then "HKCU\\Environment"
  else "HKLM\\SYSTEM\\CurrentControlSet\\Control\\Session Manager\\Environment"

/-- Scope rendered as the string used in backup file names. -/
def scopeName : Scope → String
  | Scope.session => "session"
  | Scope.user => "user"
  | Scope.system => "system"

/-- The registry key a scope maps to. -/
def regOf (s : WinState) (scope : Scope) : List (String × String) :=
  if scope = Scope.user then s.userReg else s.sysReg

/-- Store an updated registry key back into the state. -/
def setReg (s : WinState) (scope : Scope) (reg : List (String × String)) : WinState :=
  if scope = Scope.user then { s with userReg := reg } else { s with sysReg := reg }

/-- Registry value lookup; registry value names compare
case-insensitively. -/
def regLookup (reg : List (String × String)) (n : String) : Option String :=
  (reg.find? (fun p => jsToUpper p.1 == jsToUpper n)).map (·.2)

/-- Model of reg add /f: overwrite the value when the name exists
(case-insensitively), otherwise add it. -/
def regUpsert (reg : List (String × String)) (n v : String) : List (String × String) :=
  if reg.any (fun p => jsToUpper p.1 == jsToUpper n) then
    reg.map (fun p => if jsToUpper p.1 == jsToUpper n then (p.1, v) else p)
  else
    reg ++ [(n, v)]

/-- Model of reg delete /v /f. -/
def regRemove (reg : List (String × String)) (n : String) : List (String × String) :=
  reg.filter (fun p => !(jsToUpper p.1 == jsToUpper n))

/-- Model of the stdout of reg export for a key, stored verbatim as backup
content. -/
def regExportBlob (reg : List (String × String)) (path : String) : String :=
  "Windows Registry Editor Version 5.00\r\n\r\n[" ++ path ++ "]\r\n" ++
    reg.foldr (fun p acc => "\"" ++ p.1 ++ "\"=\"" ++ p.2 ++ "\"\r\n" ++ acc) ""

/-- Embedding of win.mjs getRaw.  The name is case-normalized; session
scope reads the process environment; user and system scope shell out to
reg query, whose nonzero exit for an absent value is caught and yields
undefined, and whose stdout is parsed by the regular expression
backslash-s-plus REG_ word backslash-s-plus capture with the capture
trimmed, so a stored value is returned with surrounding whitespace
stripped. -/
def winGetRaw (s : WinState) (name0 : String) (scope : Scope) : Option String :=
  let name := jsToUpper name0
  if scope = Scope.session then winEnvGet s.env name
  else (regLookup (regOf s scope) name).map jsTrim

/-- Embedding of win.mjs set.  Note that the verify option is destructured
by the source but never read: the verification read always happens.  The
rollback block of the source calls require("os") inside an ES module,
where require is not defined; the resulting ReferenceError is swallowed by
the surrounding catch before rollback = true executes, so no reg import is
performed and rollback remains undefined. -/
def winSet (s : WinState) (name0 value : String) (o : MutOpts) :
    WinState × MutationResult :=
  let name := jsToUpper name0
  if o.scope = Scope.session then
    let previous := winEnvGet s.env name
    ({ s with env := winEnvPut s.env name value },
     { ok := true, scope := o.scope, name := name, previous := previous,
       next := some value, verification := true, rollback := none,
       notes := ["session only"] })
  else
    let sc := o.scope
    let backupPath : Option String :=
      if o.backup && !s.regExportFails then
        some (scopeName sc ++ "-" ++ name ++ "-ts.bak")
      else none
    let s1 := if o.backup && !s.regExportFails then
        { s with backups := s.backups ++
            [(scopeName sc, name, regExportBlob (regOf s sc) (regPathOf sc))] }
      else s
    if s.regAddFails then
      (s1, { ok := false, scope := o.scope, name := name, previous := none,
             next := some value, verification := false, rollback := none,
             notes := ["reg add failed"] })
    else
      let s2 := setReg s1 sc (regUpsert (regOf s1 sc) name value)
      let verification := decide (winGetRaw s2 name sc = some value)
      let rollback : Option Bool :=
        if !verification && o.rollbackOnFail && o.backup && backupPath.isSome then
          none
        else none
      (s2, { ok := verification, scope := o.scope, name := name,
             previous := none, next := some value,
             verification := verification, rollback := rollback,
             notes := [regPathOf sc] })

/-- Embedding of win.mjs unset.  reg delete of an absent value exits
nonzero, which the source catches by returning a failed result; rollback
is dead for the same require-in-ES-module reason as in set. -/
def winUnset (s : WinState) (name0 : String) (o : MutOpts) :
    WinState × MutationResult :=
  let name := jsToUpper name0
  if o.scope = Scope.session then
    let previous := winEnvGet s.env name
    ({ s with env := winEnvDel s.env name },
     { ok := true, scope := o.scope, name := name, previous := previous,
       next := none, verification := true, rollback := none,
       notes := ["session only"] })
  else
    let sc := o.scope
    let backupPath : Option String :=
      if o.backup && !s.regExportFails then
        some (scopeName sc ++ "-" ++ name ++ "-ts.bak")
      else none
    let s1 := if o.backup && !s.regExportFails then
        { s with backups := s.backups ++
            [(scopeName sc, name, regExportBlob (regOf s sc) (regPathOf sc))] }
      else s
    if s.regDeleteFails || (regLookup (regOf s1 sc) name).isNone then
      (s1, { ok := false, scope := o.scope, name := name, previous := none,
             next := none, verification := false, rollback := none,
             notes := ["reg delete failed"] })
    else
      let s2 := setReg s1 sc (regRemove (regOf s1 sc) name)
      let verification := decide (winGetRaw s2 name sc = none)
      let rollback : Option Bool :=
        if !verification && o.rollbackOnFail && o.backup && backupPath.isSome then
          none
        else none
      (s2, { ok := verification, scope := o.scope, name := name,
             previous := none, next := none,
             verification := verification, rollback := rollback,
             notes := [regPathOf sc] })

end Envm

namespace Envm

/-! ## Variable expansion (getExpanded of both adapters) -/

/-- One global-replace pass of the POSIX reference pattern
dollar word-group or dollar brace word-group brace over a character list,
exactly as String.prototype.replace with a replacer function performs it:
scan left to right, replace each match once, never rescan replacements.
A reference whose name equals the expanded variable name is emitted
literally; any other reference is replaced by its live-environment value
with undefined and empty collapsing to empty.  The fuel argument (one unit
per scanned character, at least the input length from the wrapper below)
only makes the recursion structural; the fuel-exhausted branch is dead. -/
def posixExpandLoop (name : String) (env : List (String × String)) :
    Nat → List Char → List Char
  | _, [] => []
  | 0, l => l
  | fuel + 1, c :: rest =>
    if c = '$' then
      let w := rest.takeWhile wordChar
      if 0 < w.length then
        (if String.mk w = name then c :: w
         else ((envGet env (String.mk w)).getD "").data) ++
          posixExpandLoop name env fuel (rest.drop w.length)
      else
        match rest with
        | [] => [c]
        | r1 :: rest2 =>
          if r1 = lbr then
            let w2 := rest2.takeWhile wordChar
            if 0 < w2.length ∧ (rest2.drop w2.length).head? = some rbr then
              (if String.mk w2 = name then c :: r1 :: (w2 ++ [rbr])
               else ((envGet env (String.mk w2)).getD "").data) ++
                posixExpandLoop name env fuel (rest2.drop (w2.length + 1))
            else c :: posixExpandLoop name env fuel (r1 :: rest2)
          else c :: posixExpandLoop name env fuel (r1 :: rest2)
    else c :: posixExpandLoop name env fuel rest

/-- The expansion pass on strings. -/
def posixExpand (name : String) (env : List (String × String)) (val : String) : String :=
  String.mk (posixExpandLoop name env val.data.length val.data)

/-- Embedding of posix.mjs getExpanded: read the raw value through getRaw
(so the user and system stubs still reject), return a falsy raw value
unchanged, otherwise run one expansion pass. -/
def posixGetExpanded (s : PosixState) (name : String) (scope : Scope) :
    Except String (Option String) := do
  let raw ← posixGetRaw s name scope
  match raw with
  | none => return none
  | some r => if r = "" then return some r else return some (posixExpand name s.env r)

/-- One global-replace pass of the Windows reference pattern
percent word-group percent (case-insensitive classes).  The matched name
is uppercased and compared against the name parameter as passed by the
caller, which win.mjs getExpanded does not normalize.  Fuel as in the
POSIX pass. -/
def winExpandLoop (name : String) (env : List (String × String)) :
    Nat → List Char → List Char
  | _, [] => []
  | 0, l => l
  | fuel + 1, c :: rest =>
    if c = '%' then
      let w := rest.takeWhile wordChar
      if 0 < w.length ∧ (rest.drop w.length).head? = some '%' then
        (if jsToUpper (String.mk w) = name then c :: (w ++ ['%'])
         else ((winEnvGet env (jsToUpper (String.mk w))).getD "").data) ++
          winExpandLoop name env fuel (rest.drop (w.length + 1))
      else c :: winExpandLoop name env fuel rest
    else c :: winExpandLoop name env fuel rest

/-- The Windows expansion pass on strings. -/
def winExpand (name : String) (env : List (String × String)) (val : String) : String :=
  String.mk (winExpandLoop name env val.data.length val.data)

/-- Embedding of win.mjs getExpanded: raw read through getRaw (which
normalizes the name internally), falsy raw returned unchanged, one
expansion pass otherwise, with the unnormalized caller name used for the
self-reference comparison. -/
def winGetExpanded (s : WinState) (name : String) (scope : Scope) : Option String :=
  match winGetRaw s name scope with
  | none => none
  | some r => if r = "" then some r else some (winExpand name s.env r)

end Envm

namespace Envm

/-! ## Path utilities (path-utils.mjs)

JavaScript strings are modeled here directly as character lists, which is
what the split and join operations manipulate. -/

namespace pathUtils

/-- Embedding of path-utils.mjs split: a falsy (empty) value yields the
empty sequence; otherwise the value is split on the delimiter and every
segment is trimmed. -/
def split (value : List Char) (delim : Char) : List (List Char) :=
  if value.isEmpty then [] else (value.splitOn delim).map trimJS

/-- Embedding of path-utils.mjs join: falsy (empty) segments are dropped
and the rest are joined with the delimiter. -/
def join (segments : List (List Char)) (delim : Char) : List Char :=
  List.intercalate [delim] (segments.filter (fun s => !s.isEmpty))

end pathUtils

end Envm

namespace Envm

/-! ## Backup store purge (backup.mjs) -/

/-- Retention policy of purge, with the source defaults. -/
structure PurgePolicy where
  maxPerScope : Nat := 20
  maxAgeDays : Int := 30
deriving DecidableEq, Repr

/-- Scope grouping key of a backup file name: the first component of
file.split on dash. -/
def scopeKey (f : String) : String :=
  (splitChar '-' f).headD ""

/-- Whether the first nineteen characters of a list match the timestamp
pattern four digits dash two digits dash two digits T two digits dash two
digits dash two digits. -/
def tsShape : List Char → Bool
  | a1 :: a2 :: a3 :: a4 :: h1 :: b1 :: b2 :: h2 :: c1 :: c2 :: t1 :: d1 :: d2 ::
      h3 :: e1 :: e2 :: h4 :: f1 :: f2 :: _ =>
    a1.isDigit && a2.isDigit && a3.isDigit && a4.isDigit && h1 == '-' &&
      b1.isDigit && b2.isDigit && h2 == '-' && c1.isDigit && c2.isDigit &&
      t1 == 'T' && d1.isDigit && d2.isDigit && h3 == '-' && e1.isDigit &&
      e2.isDigit && h4 == '-' && f1.isDigit && f2.isDigit
  | _ => false

/-- Leftmost match of the timestamp pattern in a character list. -/
def findTs : List Char → Option (List Char)
  | [] => none
  | c :: t => if tsShape (c :: t) then some ((c :: t).take 19) else findTs t

/-- Leftmost timestamp match in a file name, the capture group of the
purge regular expression. -/
def tsOf (f : String) : Option String :=
  (findTs f.data).map String.mk

/-- The date-string mangling purge applies to a matched timestamp before
handing it to the Date constructor: every dash (including the date
separators) becomes a colon, and the final two digits are replaced by a
dot, themselves and a Z. -/
def mangleTs (ts : String) : String :=
  let mapped := ts.data.map (fun c => if c = '-' then ':' else c)
  match mapped.reverse with
  | l1 :: l2 :: rrest =>
    if l2.isDigit && l1.isDigit then
      String.mk (rrest.reverse ++ ['.', l2, l1, 'Z'])
    else String.mk mapped
  | _ => String.mk mapped

/-- Consume one expected character. -/
def expectChar (c : Char) : List Char → Option (List Char)
  | x :: r => if x = c then some r else none
  | [] => none

/-- Consume exactly n digits and return their value. -/
def takeDigits (n : Nat) (cs : List Char) : Option (Nat × List Char) :=
  let d := cs.take n
  if d.length = n && d.all (·.isDigit) then
    some (d.foldl (fun a c => a * 10 + (c.toNat - 48)) 0, cs.drop n)
  else none

/-- Days between a civil date and 1970-01-01 (standard era-based civil
calendar computation). -/
def epochDays (y : Int) (m d : Nat) : Int :=
  let y2 : Int := if m ≤ 2 then y - 1 else y
  let era : Int := (if 0 ≤ y2 then y2 else y2 - 399) / 400
  let yoe : Int := y2 - era * 400
  let mp : Int := (Int.ofNat m + 9) % 12
  let doy : Int := (153 * mp + 2) / 5 + Int.ofNat d - 1
  let doe : Int := yoe * 365 + yoe / 4 - yoe / 100 + doy
  era * 146097 + doe - 719468

/-- Milliseconds since the epoch of a civil date-time. -/
def epochMs (y : Int) (mo d h mi s ms : Nat) : Int :=
  epochDays y mo d * 86400000 + Int.ofNat h * 3600000 + Int.ofNat mi * 60000 +
    Int.ofNat s * 1000 + Int.ofNat ms

/-- Model of the V8 Date constructor on a string, restricted to what this
program can feed it: ISO-8601 date and date-time strings parse to a
millisecond timestamp; everything else is an invalid date (none).  In
particular the colon-mangled strings purge produces (colons inside the
date part, a dot directly after a colon) are invalid both for the ISO
parser and for the legacy fallback formats, which all require date
components separated by dash or slash or spelled month names. -/
def jsDateParse (s : String) : Option Int := do
  let (y, r1) ← takeDigits 4 s.data
  let r2 ← expectChar '-' r1
  let (mo, r3) ← takeDigits 2 r2
  let r4 ← expectChar '-' r3
  let (d, r5) ← takeDigits 2 r4
  if mo = 0 || mo > 12 || d = 0 || d > 31 then none
  else
    match r5 with
    | [] => some (epochMs (Int.ofNat y) mo d 0 0 0 0)
    | 'T' :: r6 => do
      let (h, r7) ← takeDigits 2 r6
      let r8 ← expectChar ':' r7
      let (mi, r9) ← takeDigits 2 r8
      let r10 ← expectChar ':' r9
      let (sec, r11) ← takeDigits 2 r10
      let (ms, r12) ← (match r11 with
        | '.' :: r => takeDigits 3 r
        | _ => some (0, r11))
      if h > 23 || mi > 59 || sec > 59 then none
      else
        match r12 with
        | [] => some (epochMs (Int.ofNat y) mo d h mi sec ms)
        | ['Z'] => some (epochMs (Int.ofNat y) mo d h mi sec ms)
        | _ => none
    | _ => none

/-- The age test of purge for one file: the timestamp is extracted by the
regular expression, mangled, parsed; an unparsable date keeps the file
(tooOld stays false).  The float comparison age in days greater than
maxAgeDays is equivalent to the scaled integer comparison used here. -/
def tooOld (now : Int) (maxAgeDays : Int) (f : String) : Bool :=
  match tsOf f with
  | none => false
  | some ts =>
    match jsDateParse (mangleTs ts) with
    | none => false
    | some t => decide (now - t > maxAgeDays * 86400000)

/-- Codepoint-wise lexicographic order on character lists. -/
def lexLe : List Char → List Char → Bool
  | [], _ => true
  | _ :: _, [] => false
  | x :: xs, y :: ys =>
    if x.val < y.val then true
    else if y.val < x.val then false
    else lexLe xs ys

/-- The sort comparator b.localeCompare(a) of purge: a sorts before b
exactly when b is less than or equal to a, giving descending order.
Codepoint order stands in for the ICU collation; the retention results
below do not depend on which total order is used. -/
def localeDesc (a b : String) : Bool :=
  lexLe b.data a.data

/-- Insertion step of the sort below. -/
def insertDesc (a : String) : List String → List String
  | [] => [a]
  | b :: t => if localeDesc a b then a :: b :: t else b :: insertDesc a t

/-- Descending sort of one scope group (insertion sort; it computes a
permutation ordered by the comparator, which is all Array.prototype.sort
guarantees and all the results below use). -/
def sortDesc (l : List String) : List String :=
  l.foldr insertDesc []

/-- The keep condition of the purge loop at index i: inside the
maxPerScope most recent and not older than maxAgeDays.  The source
deletes exactly when this is false. -/
def keepAt (pol : PurgePolicy) (now : Int) (p : Nat × String) : Bool :=
  decide (p.1 < pol.maxPerScope) && !tooOld now pol.maxAgeDays p.2

/-- Files of one scope group deleted by purge, in loop order. -/
def groupDeleted (pol : PurgePolicy) (now : Int) (g : List String) : List String :=
  (((sortDesc g).enum).filter (fun p => !keepAt pol now p)).map Prod.snd

/-- Files of one scope group kept by purge. -/
def groupKept (pol : PurgePolicy) (now : Int) (g : List String) : List String :=
  (((sortDesc g).enum).filter (keepAt pol now)).map Prod.snd

/-- The scope keys purge iterates over (object insertion order; the order
is irrelevant to the results below). -/
def scopesOf (files : List String) : List String :=
  (files.map scopeKey).dedup

/-- Embedding of backup.mjs purge: group the directory listing by scope
key, sort each group descending, and delete every file beyond the
maxPerScope most recent or older than maxAgeDays; unlink is modeled as
succeeding.  The returned list is every deleted file. -/
def purgeDeleted (pol : PurgePolicy) (now : Int) (files : List String) : List String :=
  (scopesOf files).flatMap
    (fun sc => groupDeleted pol now (files.filter (fun f => scopeKey f == sc)))

/-- The deletion count purge returns. -/
def purgeCount (pol : PurgePolicy) (now : Int) (files : List String) : Nat :=
  (purgeDeleted pol now files).length

/-- Directory contents after one purge call. -/
def purgeRemaining (pol : PurgePolicy) (now : Int) (files : List String) : List String :=
  files.filter (fun f => decide (f ∉ purgeDeleted pol now files))

end Envm

namespace Envm

/-! ## Concrete states used by the claim theorems -/

/-- A POSIX state with empty environment and no persistent files. -/
def emptyPosixState : PosixState :=
  { env := [], profile := none, etcEnv := none, backups := [] }

/-- A POSIX state whose profile write fails (for example EACCES). -/
def writeFailPosixState : PosixState :=
  { env := [], profile := some "", etcEnv := none, backups := [],
    profileWriteFails := true }

/-- A POSIX state with a managed block holding FOO in the profile and a
FOO line in /etc/environment. -/
def profiledPosixState : PosixState :=
  { env := [],
    profile := some ("# envm-begin\nexport FOO=" ++ sq ++ "bar" ++ sq ++
      "\n# envm-end\n"),
    etcEnv := some "FOO=bar",
    backups := [] }

/-- A Windows state with empty environment and registry. -/
def emptyWinState : WinState :=
  { env := [], userReg := [], sysReg := [], backups := [] }

/-- A Windows state whose reg add calls fail. -/
def addFailWinState : WinState :=
  { env := [], userReg := [], sysReg := [], backups := [], regAddFails := true }

/-- A Windows state whose reg delete calls fail. -/
def deleteFailWinState : WinState :=
  { env := [], userReg := [], sysReg := [], backups := [], regDeleteFails := true }

/-- A POSIX state whose /etc/environment write fails. -/
def etcFailPosixState : PosixState :=
  { env := [], profile := none, etcEnv := some "", backups := [],
    etcWriteFails := true }

/-- A Windows state whose user key stores FOO = percent foo percent while
FOO is absent from the live process environment. -/
def selfRefWinState : WinState :=
  { env := [], userReg := [("FOO", "%foo%")], sysReg := [], backups := [] }

/-- The same with the reference spelled in upper case. -/
def upperSelfRefWinState : WinState :=
  { env := [], userReg := [("FOO", "%FOO%")], sysReg := [], backups := [] }

end Envm

namespace Envm

/-! ## Claim theorems, first group -/

/-- C1: the claim states that getRaw at user or system scope returns the
stored string or undefined and never raises, on either platform adapter.
On the POSIX adapter both non-session branches are stubs that throw
Not implemented errors, so getRaw raises for every name at those scopes. -/
theorem c1_posixGetRaw_user_system_raises :
    posixGetRaw emptyPosixState "FOO" Scope.user =
      Except.error "Not implemented: getRaw user" ∧
    posixGetRaw emptyPosixState "FOO" Scope.system =
      Except.error "Not implemented: getRaw system" := by
  exact ⟨rfl, rfl⟩

/-- C2: the claim states that purge with maxPerScope 9999 and maxAgeDays 0
deletes every backup whose embedded timestamp parses.  The source mangles
the matched timestamp by replacing every dash (including the date
separators) with a colon before handing it to the Date constructor, so the
timestamp of a standard backup file name never parses, the age test never
fires, and purge deletes nothing even with maxAgeDays 0. -/
theorem c2_age_threshold_never_fires :
    mangleTs "2025-08-11T12-00-00" = "2025:08:11T12:00:.00Z" ∧
    jsDateParse "2025:08:11T12:00:.00Z" = none ∧
    tooOld 1760000000000 0 "user-PATH-2025-08-11T12-00-00-000Z.bak" = false ∧
    purgeCount { maxPerScope := 9999, maxAgeDays := 0 } 1760000000000
      ["user-PATH-2025-08-11T12-00-00-000Z.bak"] = 0 ∧
    purgeRemaining { maxPerScope := 9999, maxAgeDays := 0 } 1760000000000
      ["user-PATH-2025-08-11T12-00-00-000Z.bak"] =
      ["user-PATH-2025-08-11T12-00-00-000Z.bak"] := by
  refine ⟨by decide, by decide, by decide, by decide, by decide⟩

/-- C4: the claim states that when verification fails with rollbackOnFail
and backup enabled, the adapter writes the pre-mutation content back and
marks rollback true.  On the Windows adapter a value with trailing
whitespace makes verification fail (the reg query parse trims it), yet the
rollback block dies on require-in-ES-module, is swallowed by its catch,
rollback stays undefined (none) and the registry keeps the written value
instead of being restored to its pre-mutation (empty) content. -/
theorem c4_failed_verification_leaves_medium_written :
    (winSet emptyWinState "FOO" "x " { scope := Scope.user }).2.verification = false ∧
    (winSet emptyWinState "FOO" "x " { scope := Scope.user }).2.rollback = none ∧
    (winSet emptyWinState "FOO" "x " { scope := Scope.user }).1.userReg =
      [("FOO", "x ")] ∧
    emptyWinState.userReg = [] := by
  refine ⟨by decide, by decide, by decide, by decide⟩

/-- C6: the claim states that unset followed by getRaw returns undefined
for every scope on both platforms.  On the POSIX adapter, unset at user or
system scope rejects at its own verification read (the getRaw stub
throws), and getRaw itself rejects, so the sequence raises instead of
returning undefined. -/
theorem c6_posix_unset_then_getRaw_raises :
    posixUnset profiledPosixState "FOO" { scope := Scope.user } =
      Except.error "Not implemented: getRaw user" ∧
    posixUnset profiledPosixState "FOO" { scope := Scope.system } =
      Except.error "Not implemented: getRaw system" := by
  exact ⟨rfl, rfl⟩

/-- C7: the claim states that a self-referencing value expands to the
literal reference token on both platforms.  win.mjs getExpanded uppercases
each matched reference but compares it against the caller-supplied name
without normalizing it, so for a non-uppercase name the self-reference is
not recognized: with FOO holding percent foo percent in the registry and
absent from the process environment, getExpanded of foo returns the empty
string, not the literal token.  The uppercase spelling is preserved, as
the last conjunct shows. -/
theorem c7_win_self_reference_case_bug :
    winGetRaw selfRefWinState "foo" Scope.user = some "%foo%" ∧
    winGetExpanded selfRefWinState "foo" Scope.user = some "" ∧
    some "" ≠ some "%foo%" ∧
    winGetExpanded upperSelfRefWinState "FOO" Scope.user = some "%FOO%" := by
  refine ⟨by decide, by decide, by decide, by decide⟩

end Envm

namespace Envm

/-- C3: the claim states the post-write re-read happens only when verify
is enabled and that with verify disabled ok is not determined by a
verification comparison.  Both adapters destructure the verify option and
never read it: the two universal conjuncts show every set result is
independent of the flag, and the concrete run with verify disabled still
performs the verification read and gets ok = false from the comparison (a
trailing-space value that the Windows re-read trims). -/
theorem c3_verify_flag_ignored :
    (∀ (s : WinState) (n v : String) (o : MutOpts),
      winSet s n v o = winSet s n v { o with verify := true }) ∧
    (∀ (s : PosixState) (n v : String) (o : MutOpts),
      posixSet s n v o = posixSet s n v { o with verify := true }) ∧
    (winSet emptyWinState "FOO" "x "
      { scope := Scope.user, verify := false }).2.ok = false ∧
    (winSet emptyWinState "FOO" "x "
      { scope := Scope.user, verify := false }).2.verification = false := by
  refine ⟨?_, ?_, by decide, by decide⟩
  · intro s n v o; cases o; rfl
  · intro s n v o; cases o; rfl

/-- C5 counterexample: the claim states a failing write call is caught and
surfaced as a failed result, never propagated as an exception.  On the
POSIX adapter the fs.writeFile call of set is not guarded, so its
rejection propagates to the caller. -/
theorem c5_posix_write_failure_propagates :
    posixSet writeFailPosixState "FOO" "bar" { scope := Scope.user } =
      Except.error "EACCES: permission denied" := rfl

/-- C5 amended: on the Windows adapter a failing registry-mutation call
(reg add under set, reg delete under unset) is caught and surfaced as an
unsuccessful result with a diagnostic note at either non-session scope; on
the POSIX adapter the unguarded write of set and of unset, at user scope
and at system scope alike, propagates to the caller as an exception
instead of being converted into a failed result. -/
theorem c5_amended_mutation_failure_handling
    (sa sd : WinState) (n v : String) (o : MutOpts)
    (h1 : o.scope ≠ Scope.session)
    (h2 : sa.regAddFails = true) (h2d : sd.regDeleteFails = true)
    (pu psys : PosixState)
    (h3 : pu.profileWriteFails = true) (h3e : psys.etcWriteFails = true)
    (ou osys : MutOpts)
    (h4 : ou.scope = Scope.user) (h5 : osys.scope = Scope.system) :
    (winSet sa n v o).2.ok = false ∧
    (winSet sa n v o).2.notes = ["reg add failed"] ∧
    (winUnset sd n o).2.ok = false ∧
    (winUnset sd n o).2.notes = ["reg delete failed"] ∧
    posixSet pu n v ou = Except.error "EACCES: permission denied" ∧
    posixUnset pu n ou = Except.error "EACCES: permission denied" ∧
    posixSet psys n v osys = Except.error "EACCES: permission denied" ∧
    posixUnset psys n osys = Except.error "EACCES: permission denied" := by
  obtain ⟨scu, bku, vfu, rbu⟩ := ou
  simp only [MutOpts.scope] at h4
  subst h4
  obtain ⟨scs, bks, vfs, rbs⟩ := osys
  simp only [MutOpts.scope] at h5
  subst h5
  refine ⟨?_, ?_, ?_, ?_, ?_, ?_, ?_, ?_⟩
  · simp only [winSet]
    rw [if_neg h1]
    simp [h2]
  · simp only [winSet]
    rw [if_neg h1]
    simp [h2]
  · simp only [winUnset]
    rw [if_neg h1]
    simp [h2d]
  · simp only [winUnset]
    rw [if_neg h1]
    simp [h2d]
  · cases bku <;> simp [posixSet, h3]
  · cases bku <;> simp [posixUnset, h3]
  · cases bks <;> simp [posixSet, h3e]
  · cases bks <;> simp [posixUnset, h3e]

/-- C5 witness: the amended statement at concrete inputs, covering set and
unset on both adapters and both persistent POSIX scopes. -/
theorem c5_amended_mutation_failure_handling_witness :
    (winSet addFailWinState "A" "b" { scope := Scope.system }).2.ok = false ∧
    (winSet addFailWinState "A" "b" { scope := Scope.system }).2.notes =
      ["reg add failed"] ∧
    (winUnset deleteFailWinState "A" { scope := Scope.system }).2.ok = false ∧
    (winUnset deleteFailWinState "A" { scope := Scope.system }).2.notes =
      ["reg delete failed"] ∧
    posixSet writeFailPosixState "A" "b" { scope := Scope.user } =
      Except.error "EACCES: permission denied" ∧
    posixUnset writeFailPosixState "A" { scope := Scope.user } =
      Except.error "EACCES: permission denied" ∧
    posixSet etcFailPosixState "A" "b" { scope := Scope.system } =
      Except.error "EACCES: permission denied" ∧
    posixUnset etcFailPosixState "A" { scope := Scope.system } =
      Except.error "EACCES: permission denied" :=
  c5_amended_mutation_failure_handling addFailWinState deleteFailWinState
    "A" "b" { scope := Scope.system } (by decide) rfl rfl
    writeFailPosixState etcFailPosixState rfl rfl
    { scope := Scope.user } { scope := Scope.system } rfl rfl

end Envm

namespace Envm

/-! ## Expansion lemmas -/

/-- takeWhile over a list every element of which satisfies p is the list
itself. -/
theorem takeWhile_all {α : Type} {p : α → Bool} :
    ∀ (l : List α), (∀ c ∈ l, p c = true) → l.takeWhile p = l := by
  intro l h
  induction l with
  | nil => rfl
  | cons a t ih =>
    rw [List.takeWhile_cons]
    simp only [h a (List.mem_cons_self a t), if_true]
    rw [ih (fun c hc => h c (List.mem_cons_of_mem a hc))]

/-- takeWhile over a satisfying list with one failing element appended. -/
theorem takeWhile_append_one {α : Type} {p : α → Bool} (x : α)
    (hx : p x = false) :
    ∀ (l : List α), (∀ c ∈ l, p c = true) → (l ++ [x]).takeWhile p = l := by
  intro l h
  induction l with
  | nil => simp [List.takeWhile_cons, hx]
  | cons a t ih =>
    rw [List.cons_append, List.takeWhile_cons]
    simp only [h a (List.mem_cons_self a t), if_true]
    rw [ih (fun c hc => h c (List.mem_cons_of_mem a hc))]

/-- Rebuilding a string from its character data is the identity. -/
theorem mk_data (s : String) : String.mk s.data = s := rfl

/-- C10: on both adapters, a referenced name other than the (compared)
variable name that is absent from the live environment or bound to the
empty string is substituted by the empty string: the reference disappears
from the expanded value instead of remaining literal or raising. -/
theorem c10_unresolved_reference_becomes_empty
    (env : List (String × String)) (name ref : String)
    (h1 : ref.data ≠ []) (h2 : ∀ c ∈ ref.data, wordChar c = true)
    (h3 : envGet env ref = none ∨ envGet env ref = some "")
    (h4 : ref ≠ name)
    (h5 : winEnvGet env (jsToUpper ref) = none ∨
      winEnvGet env (jsToUpper ref) = some "")
    (h6 : jsToUpper ref ≠ name) :
    posixExpand name env ("$" ++ ref) = "" ∧
    posixExpand name env ("$" ++ String.mk [lbr] ++ ref ++ String.mk [rbr]) = "" ∧
    winExpand name env ("%" ++ ref ++ "%") = "" := by
  have hw : List.takeWhile wordChar ref.data = ref.data := takeWhile_all ref.data h2
  have hrw : wordChar rbr = false := by decide
  have hpw : wordChar '%' = false := by decide
  have hlw : wordChar lbr = false := by decide
  have hlne : ¬(lbr = '$') := by decide
  have hlen1 : 0 < ref.length := List.length_pos.mpr h1
  have hdl : List.drop ref.length ref.data = [] := List.drop_length ref.data
  refine ⟨?_, ?_, ?_⟩
  · show String.mk (posixExpandLoop name env ("$" ++ ref).data.length ("$" ++ ref).data) = ""
    have hd : ("$" ++ ref).data = '$' :: ref.data := by
      simp [String.data_append]
    rw [hd]
    rcases h3 with h3 | h3 <;>
      simp [posixExpandLoop, hw, hlen1, hdl, mk_data, h4, h3]
  · show String.mk (posixExpandLoop name env
      ("$" ++ String.mk [lbr] ++ ref ++ String.mk [rbr]).data.length
      ("$" ++ String.mk [lbr] ++ ref ++ String.mk [rbr]).data) = ""
    have hd : ("$" ++ String.mk [lbr] ++ ref ++ String.mk [rbr]).data =
        '$' :: lbr :: (ref.data ++ [rbr]) := by
      simp [String.data_append]
    rw [hd]
    have hw2 : List.takeWhile wordChar (ref.data ++ [rbr]) = ref.data :=
      takeWhile_append_one rbr hrw ref.data h2
    have hdrop : (ref.data ++ [rbr]).drop (ref.length + 1) = [] := by
      apply List.drop_eq_nil_of_le
      simp [List.length_append]
    rcases h3 with h3 | h3 <;>
      simp [posixExpandLoop, hw2, hlw, hlne, List.takeWhile_cons, List.drop_left,
        hlen1, mk_data, h4, h3, hdrop]
  · show String.mk (winExpandLoop name env
      ("%" ++ ref ++ "%").data.length ("%" ++ ref ++ "%").data) = ""
    have hd : ("%" ++ ref ++ "%").data = '%' :: (ref.data ++ ['%']) := by
      simp [String.data_append]
    rw [hd]
    have hw2 : List.takeWhile wordChar (ref.data ++ ['%']) = ref.data :=
      takeWhile_append_one '%' hpw ref.data h2
    have hdrop : (ref.data ++ ['%']).drop (ref.length + 1) = [] := by
      apply List.drop_eq_nil_of_le
      simp [List.length_append]
    rcases h5 with h5 | h5 <;>
      simp [winExpandLoop, hw2, List.drop_left, hlen1, mk_data,
        h6, h5, hdrop]

/-- C10 witness: the statement at a concrete environment, name and
reference. -/
theorem c10_unresolved_reference_becomes_empty_witness :
    posixExpand "FOO" [("EMPTY", "")] ("$" ++ "BAR") = "" ∧
    posixExpand "FOO" [("EMPTY", "")]
      ("$" ++ String.mk [lbr] ++ "BAR" ++ String.mk [rbr]) = "" ∧
    winExpand "FOO" [("EMPTY", "")] ("%" ++ "BAR" ++ "%") = "" :=
  c10_unresolved_reference_becomes_empty [("EMPTY", "")] "FOO" "BAR"
    (by decide) (by decide) (Or.inl (by decide)) (by decide)
    (Or.inl (by decide)) (by decide)

end Envm

namespace Envm

/-! ## Path utility round trip -/

/-- Mapping a function that fixes every element is the identity. -/
theorem map_self_of {α : Type} (f : α → α) :
    ∀ (l : List α), (∀ a ∈ l, f a = a) → l.map f = l := by
  intro l h
  induction l with
  | nil => rfl
  | cons a t ih =>
    rw [List.map_cons, h a (List.mem_cons_self a t),
      ih (fun c hc => h c (List.mem_cons_of_mem a hc))]

/-- C8 counterexample: the claim asserts the round trip for any segment
sequence without empty segments and without delimiter occurrences.  The
segment with a trailing space satisfies both hypotheses, but split trims
every segment, so the round trip loses the space. -/
theorem c8_split_join_counterexample :
    (['a', ' '] : List Char) ≠ [] ∧ ':' ∉ (['a', ' '] : List Char) ∧
    pathUtils.split (pathUtils.join [['a', ' ']] ':') ':' = [['a']] ∧
    pathUtils.split (pathUtils.join [['a', ' ']] ':') ':' ≠ [['a', ' ']] := by
  decide

/-- C8 amended: split after join is the identity for segment sequences
with no empty segments, no delimiter occurrences, and no segment carrying
leading or trailing JavaScript whitespace (each segment equals its own
trim). -/
theorem c8_split_join_round_trip (segments : List (List Char)) (d : Char)
    (h1 : ∀ s ∈ segments, s ≠ [])
    (h2 : ∀ s ∈ segments, d ∉ s)
    (h3 : ∀ s ∈ segments, trimJS s = s) :
    pathUtils.split (pathUtils.join segments d) d = segments := by
  have hfilter : segments.filter (fun s => !s.isEmpty) = segments :=
    List.filter_eq_self.mpr (fun s hs => by simp [h1 s hs])
  unfold pathUtils.split pathUtils.join
  rw [hfilter]
  cases hseg : segments with
  | nil => simp [List.intercalate]
  | cons s0 rest =>
    have hne : List.intercalate [d] (s0 :: rest) ≠ [] := by
      have h0 : s0 ≠ [] := h1 s0 (by rw [hseg]; exact List.mem_cons_self s0 rest)
      cases rest with
      | nil =>
        simpa [List.intercalate, List.intersperse] using h0
      | cons r t =>
        simp [List.intercalate, List.intersperse, h0]
    rw [if_neg (by simp [hne])]
    rw [List.splitOn_intercalate (s0 :: rest) d
      (fun l hl => h2 l (by rw [hseg]; exact hl)) (by simp)]
    exact map_self_of trimJS (s0 :: rest) (fun a ha => h3 a (by rw [hseg]; exact ha))

/-- C8 witness: the amended round trip at a concrete trimmed sequence. -/
theorem c8_split_join_round_trip_witness :
    pathUtils.split (pathUtils.join [['a'], ['b', 'c']] ':') ':' =
      [['a'], ['b', 'c']] :=
  c8_split_join_round_trip [['a'], ['b', 'c']] ':' (by decide) (by decide)
    (by decide)

end Envm

namespace Envm

/-! ## Purge retention lemmas -/

/-- The values surviving an indexed filter form a sublist of the original
list. -/
theorem filterEnum_sublist {α : Type} (p : Nat × α → Bool) (l : List α) :
    ∀ (n : Nat), List.Sublist (((List.enumFrom n l).filter p).map Prod.snd) l := by
  induction l with
  | nil => intro n; simp
  | cons a t ih =>
    intro n
    rw [List.enumFrom_cons]
    by_cases hp : p (n, a) = true
    · rw [List.filter_cons_of_pos hp, List.map_cons]
      exact List.Sublist.cons₂ a (ih (n + 1))
    · rw [List.filter_cons_of_neg (by simpa using hp)]
      exact List.Sublist.cons a (ih (n + 1))

/-- Members of an enumeration project into the list. -/
theorem snd_mem_of_mem_enumFrom {α : Type} {l : List α} :
    ∀ {n : Nat} {p : Nat × α}, p ∈ List.enumFrom n l → p.2 ∈ l := by
  induction l with
  | nil => intro n p hp; cases hp
  | cons a t ih =>
    intro n p hp
    rw [List.enumFrom_cons] at hp
    rcases List.mem_cons.mp hp with hp | hp
    · subst hp; exact List.mem_cons_self a t
    · exact List.mem_cons_of_mem a (ih hp)

/-- Indices of an enumeration are bounded by start plus length. -/
theorem fst_lt_of_mem_enumFrom {α : Type} {l : List α} :
    ∀ {n : Nat} {p : Nat × α}, p ∈ List.enumFrom n l → p.1 < n + l.length := by
  induction l with
  | nil => intro n p hp; cases hp
  | cons a t ih =>
    intro n p hp
    rw [List.enumFrom_cons] at hp
    rcases List.mem_cons.mp hp with hp | hp
    · subst hp
      simp only [List.length_cons]
      omega
    · have := ih hp
      simp only [List.length_cons]
      omega

/-- Every list member appears in the enumeration at some index. -/
theorem exists_mem_enumFrom {α : Type} {x : α} :
    ∀ {l : List α}, x ∈ l → ∀ (n : Nat), ∃ i, (i, x) ∈ List.enumFrom n l := by
  intro l
  induction l with
  | nil => intro hx; cases hx
  | cons a t ih =>
    intro hx n
    rcases List.mem_cons.mp hx with hx | hx
    · subst hx
      exact ⟨n, by rw [List.enumFrom_cons]; exact List.mem_cons_self _ _⟩
    · obtain ⟨i, hi⟩ := ih hx (n + 1)
      exact ⟨i, by rw [List.enumFrom_cons]; exact List.mem_cons_of_mem _ hi⟩

/-- An indexed filter whose index condition is a bound m is a filter of
the take of the first m - n elements. -/
theorem filterEnum_lt_eq {α : Type} (m : Nat) (q : α → Bool) (l : List α) :
    ∀ (n : Nat),
      ((List.enumFrom n l).filter
        (fun p => decide (p.1 < m) && q p.2)).map Prod.snd
        = (l.take (m - n)).filter q := by
  induction l with
  | nil => intro n; simp
  | cons a t ih =>
    intro n
    rw [List.enumFrom_cons]
    by_cases hn : n < m
    · have h1 : m - n = (m - (n + 1)) + 1 := by omega
      by_cases hq : q a = true
      · rw [List.filter_cons_of_pos (by simp [hn, hq]), List.map_cons, ih (n + 1),
          h1, List.take_succ_cons, List.filter_cons_of_pos hq]
      · rw [List.filter_cons_of_neg (by simp [hn, hq]), ih (n + 1), h1,
          List.take_succ_cons, List.filter_cons_of_neg (by simpa using hq)]
    · have h1 : m - n = 0 := by omega
      have h2 : m - (n + 1) = 0 := by omega
      rw [List.filter_cons_of_neg (by simp [hn]), ih (n + 1), h1, h2]
      rfl

/-- A flatMap every chunk of which is empty is empty. -/
theorem flatMap_eq_nil_of {α β : Type} (l : List α) (f : α → List β)
    (h : ∀ a ∈ l, f a = []) : l.flatMap f = [] := by
  induction l with
  | nil => rfl
  | cons a t ih =>
    simp only [List.flatMap_cons, h a (List.mem_cons_self a t),
      ih (fun c hc => h c (List.mem_cons_of_mem a hc)), List.nil_append]

/-- Inserting into a list permutes consing onto it. -/
theorem insertDesc_perm (a : String) :
    ∀ (l : List String), List.Perm (insertDesc a l) (a :: l) := by
  intro l
  induction l with
  | nil => exact List.Perm.refl _
  | cons b t ih =>
    by_cases hc : localeDesc a b = true
    · simp [insertDesc, hc]
    · simp only [insertDesc, hc, if_false]
      exact (List.Perm.cons b ih).trans (List.Perm.swap a b t)

/-- The descending sort is a permutation of its input. -/
theorem sortDesc_perm : ∀ (l : List String), List.Perm (sortDesc l) l := by
  intro l
  induction l with
  | nil => exact List.Perm.refl _
  | cons a t ih =>
    exact (insertDesc_perm a (sortDesc t)).trans (List.Perm.cons a ih)

/-- Files deleted from a group belong to the group. -/
theorem groupDeleted_subset (pol : PurgePolicy) (now : Int) (g : List String) :
    ∀ x ∈ groupDeleted pol now g, x ∈ g := by
  intro x hx
  have hsub := filterEnum_sublist (fun p => !keepAt pol now p) (sortDesc g) 0
  exact (sortDesc_perm g).subset
    (hsub.subset (by simpa [groupDeleted, List.enum] using hx))

/-- A group member older than the threshold is deleted. -/
theorem mem_groupDeleted_of_tooOld (pol : PurgePolicy) (now : Int)
    (g : List String) (x : String) (hx : x ∈ g)
    (ht : tooOld now pol.maxAgeDays x = true) :
    x ∈ groupDeleted pol now g := by
  obtain ⟨i, hi⟩ := exists_mem_enumFrom ((sortDesc_perm g).mem_iff.mpr hx) 0
  refine List.mem_map.mpr ⟨(i, x), List.mem_filter.mpr
    ⟨by simpa [List.enum] using hi, ?_⟩, rfl⟩
  simp [keepAt, ht]

/-- A group member that is not deleted is kept. -/
theorem mem_groupKept_of (pol : PurgePolicy) (now : Int)
    (g : List String) (x : String) (hx : x ∈ g)
    (hnd : x ∉ groupDeleted pol now g) :
    x ∈ groupKept pol now g := by
  obtain ⟨i, hi⟩ := exists_mem_enumFrom ((sortDesc_perm g).mem_iff.mpr hx) 0
  by_cases hk : keepAt pol now (i, x) = true
  · exact List.mem_map.mpr ⟨(i, x), List.mem_filter.mpr
      ⟨by simpa [List.enum] using hi, hk⟩, rfl⟩
  · exact absurd (List.mem_map.mpr ⟨(i, x), List.mem_filter.mpr
      ⟨by simpa [List.enum] using hi, by simpa using hk⟩, rfl⟩) hnd

/-- At most maxPerScope files of a group are kept. -/
theorem groupKept_length_le (pol : PurgePolicy) (now : Int) (g : List String) :
    (groupKept pol now g).length ≤ pol.maxPerScope := by
  have heq : groupKept pol now g =
      ((sortDesc g).take pol.maxPerScope).filter
        (fun x => !tooOld now pol.maxAgeDays x) :=
    filterEnum_lt_eq pol.maxPerScope
      (fun x => !tooOld now pol.maxAgeDays x) (sortDesc g) 0
  rw [heq]
  exact le_trans (List.length_filter_le _ _) (List.length_take_le _ _)

end Envm

namespace Envm

/-- C9: purge is idempotent and monotonic.  For a duplicate-free directory
listing (directories never hold two files of the same name) and any fixed
policy and clock, a purge immediately after a purge deletes nothing, a
second purge leaves the directory unchanged, and the remaining file count
never exceeds the starting count. -/
theorem c9_purge_idempotent_monotonic (pol : PurgePolicy) (now : Int)
    (files : List String) (h : files.Nodup) :
    purgeDeleted pol now (purgeRemaining pol now files) = [] ∧
    purgeRemaining pol now (purgeRemaining pol now files) =
      purgeRemaining pol now files ∧
    (purgeRemaining pol now files).length ≤ files.length := by
  have hmain : purgeDeleted pol now (purgeRemaining pol now files) = [] := by
    unfold purgeDeleted
    apply flatMap_eq_nil_of
    intro sc hsc
    set R := purgeRemaining pol now files with hR
    set D := purgeDeleted pol now files with hD
    set g := files.filter (fun f => scopeKey f == sc) with hg
    set g2 := R.filter (fun f => scopeKey f == sc) with hg2
    have hg2sub : ∀ x ∈ g2, x ∈ g ∧ x ∉ D := by
      intro x hx
      have hx1 := List.mem_filter.mp hx
      have hx2 := List.mem_filter.mp hx1.1
      exact ⟨List.mem_filter.mpr ⟨hx2.1, hx1.2⟩, by simpa using hx2.2⟩
    have hDof : ∀ x, x ∈ g → x ∈ groupDeleted pol now g → x ∈ D := by
      intro x hxg hxd
      have hxf : x ∈ files := (List.mem_filter.mp hxg).1
      have hsc2 : scopeKey x = sc := by
        have := (List.mem_filter.mp hxg).2
        exact eq_of_beq this
      have hscmem : sc ∈ scopesOf files := by
        rw [← hsc2]
        exact List.mem_dedup.mpr (List.mem_map_of_mem scopeKey hxf)
      rw [hD]
      unfold purgeDeleted
      exact List.mem_flatMap.mpr ⟨sc, hscmem, hxd⟩
    have hnotold : ∀ x ∈ g2, tooOld now pol.maxAgeDays x = false := by
      intro x hx
      obtain ⟨hxg, hxD⟩ := hg2sub x hx
      by_contra hcon
      have ht : tooOld now pol.maxAgeDays x = true := by
        simpa using hcon
      exact hxD (hDof x hxg (mem_groupDeleted_of_tooOld pol now g x hxg ht))
    have hsubkept : ∀ x ∈ g2, x ∈ groupKept pol now g := by
      intro x hx
      obtain ⟨hxg, hxD⟩ := hg2sub x hx
      refine mem_groupKept_of pol now g x hxg ?_
      intro hdel
      exact hxD (hDof x hxg hdel)
    have hnodup2 : g2.Nodup :=
      List.Nodup.filter _ (List.Nodup.filter _ h)
    have hlen2 : g2.length ≤ pol.maxPerScope := by
      have hsp : List.Subperm g2 (groupKept pol now g) :=
        List.Nodup.subperm hnodup2 hsubkept
      exact le_trans hsp.length_le (groupKept_length_le pol now g)
    have hfilt : ((sortDesc g2).enum.filter (fun p => !keepAt pol now p)) = [] := by
      rw [List.filter_eq_nil_iff]
      intro p hp
      have hpm : p.2 ∈ g2 :=
        (sortDesc_perm g2).subset (snd_mem_of_mem_enumFrom
          (by simpa [List.enum] using hp))
      have hplt : p.1 < g2.length := by
        have h2 := fst_lt_of_mem_enumFrom (l := sortDesc g2)
          (by simpa [List.enum] using hp)
        have h3 : (sortDesc g2).length = g2.length := (sortDesc_perm g2).length_eq
        omega
      simp [keepAt, hnotold p.2 hpm, Nat.lt_of_lt_of_le hplt hlen2]
    unfold groupDeleted
    rw [hfilt]
    rfl
  refine ⟨hmain, ?_, List.length_filter_le _ _⟩
  show (purgeRemaining pol now files).filter
    (fun f => decide (f ∉ purgeDeleted pol now (purgeRemaining pol now files))) =
    purgeRemaining pol now files
  rw [hmain]
  simp

/-- C9 witness: the instantiated statement at a concrete three-file
directory with a keep-one-per-scope policy. -/
theorem c9_purge_idempotent_monotonic_witness :
    purgeDeleted { maxPerScope := 1, maxAgeDays := 9999 } 0
      (purgeRemaining { maxPerScope := 1, maxAgeDays := 9999 } 0
        ["user-A-1.bak", "user-B-2.bak", "system-C-3.bak"]) = [] ∧
    purgeRemaining { maxPerScope := 1, maxAgeDays := 9999 } 0
      (purgeRemaining { maxPerScope := 1, maxAgeDays := 9999 } 0
        ["user-A-1.bak", "user-B-2.bak", "system-C-3.bak"]) =
      purgeRemaining { maxPerScope := 1, maxAgeDays := 9999 } 0
        ["user-A-1.bak", "user-B-2.bak", "system-C-3.bak"] ∧
    (purgeRemaining { maxPerScope := 1, maxAgeDays := 9999 } 0
      ["user-A-1.bak", "user-B-2.bak", "system-C-3.bak"]).length ≤
      (["user-A-1.bak", "user-B-2.bak", "system-C-3.bak"] : List String).length :=
  c9_purge_idempotent_monotonic { maxPerScope := 1, maxAgeDays := 9999 } 0
    ["user-A-1.bak", "user-B-2.bak", "system-C-3.bak"] (by decide)

end Envm
